import Mathlib

/-!
Verification of the markdown table-of-contents tool (markdown-toc.py).

The embedding works on Unicode code points represented as natural numbers; a
Python string is a `List Nat` and the document's line list is a
`List (List Nat)`.  Pure functions of the source are translated one to one;
each regex substitution pass is translated as a scan whose fuel starts at the
length of the input, so that every definition is structurally recursive and
evaluates inside `decide`.

Python's character classes and case mapping are full-Unicode tables; they are
modelled exactly on code points below 256 (the range every input of this
development lives in) and the elided remainder of the table is documented at
each definition.
-/

namespace MarkdownToc

/-- Code points of a string literal; the embedding works on lists of code points. -/
def str2cp (s : String) : List Nat :=
  s.data.map Char.toNat

/-- Models Python whitespace (str.strip's default set and the regex class \s) on
code points below 256, where both coincide: tab through carriage return, the
separator controls 28-31, space, next line (133) and no-break space (160).
Unicode whitespace above 255 is elided; no input below uses it. -/
def isPySpace (c : Nat) : Bool :=
  decide ((9 ≤ c ∧ c ≤ 13) ∨ (28 ≤ c ∧ c ≤ 32) ∨ c = 133 ∨ c = 160)

/-- Models the Python regex class \w (word character) on code points below 256,
where it is exactly: ASCII digits, letters and underscore, the ordinal
indicators 170 and 186, the superscript and fraction signs 178, 179, 185,
188-190, micro sign 181, and the Latin-1 letters 192-214, 216-246, 248-255
(215 and 247 are the multiplication and division signs).  Code points above
255 are treated as non-word; that part of the Unicode table is elided. -/
def isWordCp (c : Nat) : Bool :=
  decide ((48 ≤ c ∧ c ≤ 57) ∨ (65 ≤ c ∧ c ≤ 90) ∨ c = 95 ∨ (97 ≤ c ∧ c ≤ 122) ∨
    c = 170 ∨ c = 178 ∨ c = 179 ∨ c = 181 ∨ c = 185 ∨ c = 186 ∨
    (188 ≤ c ∧ c ≤ 190) ∨ (192 ≤ c ∧ c ≤ 214) ∨ (216 ≤ c ∧ c ≤ 246) ∨
    (248 ≤ c ∧ c ≤ 255))

/-- Models Python str.lower code-point-wise on code points below 256, where it
is exactly: ASCII A-Z and the Latin-1 uppercase letters 192-222 other than the
multiplication sign 215 move 32 places up; everything else is fixed.  Above
255 the case table is elided and the function is the identity. -/
def pyLower (c : Nat) : Nat :=
  if 65 ≤ c ∧ c ≤ 90 then c + 32
  else if 192 ≤ c ∧ c ≤ 222 ∧ c ≠ 215 then c + 32
  else c

/-- Models Python str.strip(): drop whitespace from both ends. -/
def pyStrip (s : List Nat) : List Nat :=
  ((s.dropWhile isPySpace).reverse.dropWhile isPySpace).reverse

/-- Models content.split on the newline character: the result always has at
least one element, as in Python where splitting the empty string yields a
single empty piece. -/
def splitLines : List Nat → List (List Nat)
  | [] => [[]]
  | c :: cs =>
    if c = 10 then [] :: splitLines cs
    else
      match splitLines cs with
      | [] => [[c]]
      | l :: ls => (c :: l) :: ls

/-- Models joining a line list with single newlines. -/
def joinLines : List (List Nat) → List Nat
  | [] => []
  | [l] => l
  | l :: ls => l ++ 10 :: joinLines ls

/-- Models str.startswith: the second list is a prefix of the first. -/
def startsWithL : List Nat → List Nat → Bool
  | _, [] => true
  | [], _ :: _ => false
  | c :: cs, p :: ps => if c = p then startsWithL cs ps else false

/-- Scans for the "-->" closing an HTML comment.  The regex dot does not match
a newline, so a newline reached before the closer means the comment does not
close on this line and there is no match.  Returns the suffix after the
closer. -/
def scanClose : List Nat → Option (List Nat)
  | [] => none
  | c :: cs =>
    if startsWithL (c :: cs) (str2cp "-->") then some ((c :: cs).drop 3)
    else if c = 10 then none
    else scanClose cs

/-- Models the substitution pass removing every non-greedy single-line match of
the HTML-comment pattern: at each position where the literal opener appears
and a closer follows before any newline, the whole match is dropped and the
scan resumes after the closer.  Fuel starts at the input length; the reopened
scan runs on a suffix strictly shorter than the consumed part, so the zero
arm is never reached. -/
def rmcAux : Nat → List Nat → List Nat
  | 0, s => s
  | _ + 1, [] => []
  | n + 1, c :: cs =>
    if c = 60 then
      if startsWithL cs (str2cp "!--") then
        match scanClose (cs.drop 3) with
        | some rest => rmcAux n rest
        | none => c :: rmcAux n cs
      else c :: rmcAux n cs
    else c :: rmcAux n cs

/-- Removes single-line HTML comments, as the first step of heading_to_anchor. -/
def removeComments (s : List Nat) : List Nat :=
  rmcAux s.length s

/-- Models the substitution pass unwrapping inline code spans: at a backtick
followed by a nonempty backtick-free run and a closing backtick, both
delimiters are dropped, the run is kept verbatim, and the scan resumes after
the closing delimiter.  Fuel starts at the input length and the zero arm is
never reached. -/
def codeAux : Nat → List Nat → List Nat
  | 0, s => s
  | _ + 1, [] => []
  | n + 1, c :: cs =>
    if c = 96 then
      match cs.takeWhile (fun d => !(d == 96)), cs.drop (cs.takeWhile (fun d => !(d == 96))).length with
      | content@(_ :: _), _ :: rtail => content ++ codeAux n rtail
      | _, _ => c :: codeAux n cs
    else c :: codeAux n cs

/-- Unwraps inline code spans, keeping their content. -/
def stripCodeSpans (s : List Nat) : List Nat :=
  codeAux s.length s

/-- Models the substitution pass replacing each maximal whitespace run by a
single hyphen; the Boolean records whether the scan is inside a run. -/
def wsCollapse : Bool → List Nat → List Nat
  | _, [] => []
  | inRun, c :: cs =>
    if isPySpace c then
      if inRun then wsCollapse true cs else 45 :: wsCollapse true cs
    else c :: wsCollapse false cs

/-- Models the substitution pass collapsing each maximal hyphen run into a
single hyphen. -/
def hyCollapse : Bool → List Nat → List Nat
  | _, [] => []
  | inRun, c :: cs =>
    if c = 45 then
      if inRun then hyCollapse true cs else 45 :: hyCollapse true cs
    else c :: hyCollapse false cs

/-- Models str.strip with the hyphen argument: drop hyphens from both ends. -/
def stripHyphens (s : List Nat) : List Nat :=
  ((s.dropWhile (fun c => c == 45)).reverse.dropWhile (fun c => c == 45)).reverse

/-- The first four steps of heading_to_anchor: remove single-line HTML
comments, unwrap inline code spans, lowercase, and delete every character that
is not a word character, whitespace or a hyphen. -/
def anchorKept (text : List Nat) : List Nat :=
  ((stripCodeSpans (removeComments text)).map pyLower).filter
    (fun c => isWordCp c || isPySpace c || c == 45)

/-- Models heading_to_anchor: after anchorKept, turn whitespace runs into
hyphens, collapse hyphen runs, and trim hyphens from both ends. -/
def heading_to_anchor (text : List Nat) : List Nat :=
  stripHyphens (hyCollapse false (wsCollapse false (anchorKept text)))

/-- A stripped line opening or possibly closing a fenced code block: it starts
with three backticks or three tildes. -/
def isFenceCand (stripped : List Nat) : Bool :=
  startsWithL stripped (str2cp "```") || startsWithL stripped (str2cp "~~~")

/-- Models the fence bookkeeping shared by extract_headings and insert_toc, on
a fence-candidate line: outside a block the first three stripped characters
become the active fence; inside a block a candidate starting with the active
fence closes it and any other candidate is inert. -/
def fenceStep (st : Option (List Nat)) (stripped : List Nat) : Option (List Nat) :=
  match st with
  | none => some (stripped.take 3)
  | some f => if startsWithL stripped f then none else some f

/-- Models the heading match of extract_headings, one to six hash marks then at
least one whitespace character then nonempty text, on a line without newline
characters (every caller splits on newlines first).  The greedy 1-6 hash run
is the maximal hash run; the greedy whitespace run backtracks by one character
when the text group would otherwise be empty.  Returns the level and the raw
text group. -/
def matchHeading (line : List Nat) : Option (Nat × List Nat) :=
  let n := (line.takeWhile (fun c => c == 35)).length
  if 1 ≤ n ∧ n ≤ 6 then
    let rest := line.drop n
    let k := (rest.takeWhile isPySpace).length
    if k = 0 then none
    else if k < rest.length then some (n, rest.drop k)
    else if 2 ≤ k then some (n, rest.drop (k - 1))
    else none
  else none

/-- Models the scanning loop of extract_headings: the state is the active fence
(present exactly when inside a code block) and the running line index.  Fence
candidate lines update the state and are skipped, lines inside a block are
skipped, lines starting with four spaces or a tab are skipped as indented
code, and on a heading match the level, stripped text and index are
recorded. -/
def extractAux : Option (List Nat) → Nat → List (List Nat) → List (Nat × List Nat × Nat)
  | _, _, [] => []
  | fence, i, line :: rest =>
    let stripped := pyStrip line
    if isFenceCand stripped then extractAux (fenceStep fence stripped) (i + 1) rest
    else if fence.isSome then extractAux fence (i + 1) rest
    else if startsWithL line (str2cp "    ") || startsWithL line (str2cp "\t") then
      extractAux fence (i + 1) rest
    else
      match matchHeading line with
      | some (lvl, txt) => (lvl, pyStrip txt, i) :: extractAux fence (i + 1) rest
      | none => extractAux fence (i + 1) rest

/-- Models extract_headings on a line list. -/
def extract_headings (lines : List (List Nat)) : List (Nat × List Nat × Nat) :=
  extractAux none 0 lines

/-- Models the heading test of insert_toc's first-heading scan, one to six hash
marks followed by at least one whitespace character, with no requirement on
what follows. -/
def looseHeading (line : List Nat) : Bool :=
  let n := (line.takeWhile (fun c => c == 35)).length
  decide (1 ≤ n ∧ n ≤ 6) &&
    match (line.drop n).head? with
    | some c => isPySpace c
    | none => false

/-- Models insert_toc's first-heading scan, with the same fence bookkeeping as
extract_headings and the loose heading test. -/
def findHeadAux : Option (List Nat) → Nat → List (List Nat) → Option Nat
  | _, _, [] => none
  | fence, i, line :: rest =>
    let stripped := pyStrip line
    if isFenceCand stripped then findHeadAux (fenceStep fence stripped) (i + 1) rest
    else if fence.isSome then findHeadAux fence (i + 1) rest
    else if looseHeading line then some i
    else findHeadAux fence (i + 1) rest

/-- The index of the first line accepted by insert_toc's loose heading scan. -/
def find_first_heading (lines : List (List Nat)) : Option Nat :=
  findHeadAux none 0 lines

/-- Lookup in the anchor counter table, modelled as an association list in
insertion order. -/
def lookupCount : List (List Nat × Nat) → List Nat → Option Nat
  | [], _ => none
  | (k, v) :: rest, a => if k = a then some v else lookupCount rest a

/-- Increment the count stored for a key already present in the table. -/
def bumpCount : List (List Nat × Nat) → List Nat → List (List Nat × Nat)
  | [], _ => []
  | (k, v) :: rest, a => if k = a then (k, v + 1) :: rest else (k, v) :: bumpCount rest a

/-- Decimal digits of a number, as code points. -/
def natDigits (n : Nat) : List Nat :=
  (Nat.toDigits 10 n).map Char.toNat

/-- Models the min of the levels of a heading list.  The empty arm is
unreachable: generate_toc only takes the minimum after its emptiness guard,
as the Python min of a nonempty sequence. -/
def minLevelOf : List (Nat × List Nat × Nat) → Nat
  | [] => 0
  | h :: t => t.foldl (fun m x => min m x.1) h.1

/-- Models one iteration of generate_toc's loop over the state (counter table,
emitted lines): a heading deeper than max_level is skipped; otherwise the
indent is two spaces per level above min_level, the raw anchor is slugged
from the text, a raw anchor already in the table bumps its count and gets the
count as a suffix, a fresh one is stored with count zero and used unchanged,
and the rendered entry is appended. -/
def tocStep (max_level min_level : Nat) (st : List (List Nat × Nat) × List (List Nat))
    (h : Nat × List Nat × Nat) : List (List Nat × Nat) × List (List Nat) :=
  if h.1 > max_level then st
  else
    let indent := List.replicate (2 * (h.1 - min_level)) 32
    let anchor := heading_to_anchor h.2.1
    match lookupCount st.1 anchor with
    | some c =>
      (bumpCount st.1 anchor,
        st.2 ++ [indent ++ str2cp "- [" ++ h.2.1 ++ str2cp "](#" ++
          (anchor ++ 45 :: natDigits (c + 1)) ++ str2cp ")"])
    | none =>
      (st.1 ++ [(anchor, 0)],
        st.2 ++ [indent ++ str2cp "- [" ++ h.2.1 ++ str2cp "](#" ++ anchor ++ str2cp ")"])

/-- Models generate_toc: empty input yields the empty string; skip_first drops
the first heading (for the empty list the Python truthiness guard yields the
same empty list); an empty remainder yields the empty string; otherwise the
remainder is rendered line by line and joined with newlines.  The source
defaults are max_level 3 and skip_first true. -/
def generate_toc (headings : List (Nat × List Nat × Nat)) (max_level : Nat)
    (skip_first : Bool) : List Nat :=
  if headings = [] then []
  else
    let toc_headings := if skip_first then headings.drop 1 else headings
    if toc_headings = [] then []
    else
      let min_level := minLevelOf toc_headings
      joinLines (toc_headings.foldl (tocStep max_level min_level) ([], [])).2

/-- A line whose stripped content is exactly the opening TOC marker. -/
def isTocLine (l : List Nat) : Bool :=
  decide (pyStrip l = str2cp "<!-- TOC -->")

/-- A line whose stripped content is exactly the closing TOC marker. -/
def isEndLine (l : List Nat) : Bool :=
  decide (pyStrip l = str2cp "<!-- /TOC -->")

/-- Models insert_toc's marker scan: every opening marker line overwrites the
recorded start; the first closing marker line seen while a start is recorded
ends the scan and both indices are returned. -/
def findTocAux : List (List Nat) → Option Nat → Nat → Option (Nat × Nat)
  | [], _, _ => none
  | l :: ls, st, i =>
    if isTocLine l then findTocAux ls (some i) (i + 1)
    else
      match st with
      | some s => if isEndLine l then some (s, i) else findTocAux ls (some s) (i + 1)
      | none => findTocAux ls none (i + 1)

/-- Models insert_toc: split the content into lines; when the marker scan finds
a block, delete the lines from start to end inclusive; then look for the first
loose heading with fence tracking.  With no heading the new block plus a blank
line is prepended to the ORIGINAL content string, exactly as the source does;
with a heading the block (preceded by a blank line) is inserted right after it
and the lines are rejoined. -/
def insert_toc (content toc : List Nat) : List Nat :=
  let lines0 := splitLines content
  let lines :=
    match findTocAux lines0 none 0 with
    | some (s, e) => lines0.take s ++ lines0.drop (e + 1)
    | none => lines0
  match findHeadAux none 0 lines with
  | none => str2cp "<!-- TOC -->\n" ++ toc ++ str2cp "\n<!-- /TOC -->\n\n" ++ content
  | some i =>
    joinLines (lines.take (i + 1) ++
      ([] :: str2cp "<!-- TOC -->" :: toc :: [str2cp "<!-- /TOC -->"]) ++
      lines.drop (i + 1))

/-- The whole pipeline as the spec composes it, with the source defaults
max_level 3 and skip_first true. -/
def tocPipeline (d : List Nat) : List Nat :=
  insert_toc d (generate_toc (extract_headings (splitLines d)) 3 true)

/-- The per-line fence-state update induced by the scans: a fence-candidate
line steps the state through fenceStep and every other line leaves it
unchanged.  Used to phrase which lines lie inside a fenced block. -/
def fenceUpd (st : Option (List Nat)) (line : List Nat) : Option (List Nat) :=
  if isFenceCand (pyStrip line) then fenceStep st (pyStrip line) else st

/-- The fence state the scans are in when they reach line i: the fold of the
per-line update over the first i lines, starting outside any block. -/
def fenceStateAt (lines : List (List Nat)) (i : Nat) : Option (List Nat) :=
  (lines.take i).foldl fenceUpd none

/-! Helper lemmas about the character-level passes of heading_to_anchor. -/

theorem rmcAux_eq_self (n : Nat) (s : List Nat) (h : ∀ c ∈ s, c ≠ 60) :
    rmcAux n s = s := by
  induction n generalizing s with
  | zero => rfl
  | succ n ih =>
    cases s with
    | nil => rfl
    | cons c cs =>
      have hc : c ≠ 60 := h c (List.mem_cons_self c cs)
      simp only [rmcAux, if_neg hc]
      rw [ih cs (fun d hd => h d (List.mem_cons_of_mem c hd))]

theorem codeAux_eq_self (n : Nat) (s : List Nat) (h : ∀ c ∈ s, c ≠ 96) :
    codeAux n s = s := by
  induction n generalizing s with
  | zero => rfl
  | succ n ih =>
    cases s with
    | nil => rfl
    | cons c cs =>
      have hc : c ≠ 96 := h c (List.mem_cons_self c cs)
      simp only [codeAux, if_neg hc]
      rw [ih cs (fun d hd => h d (List.mem_cons_of_mem c hd))]

theorem pyLower_pyLower (c : Nat) : pyLower (pyLower c) = pyLower c := by
  unfold pyLower
  split_ifs <;> omega

theorem map_eq_self_of (f : Nat → Nat) (s : List Nat) (h : ∀ c ∈ s, f c = c) :
    s.map f = s := by
  induction s with
  | nil => rfl
  | cons d ds ih =>
    rw [List.map_cons, h d (List.mem_cons_self d ds),
      ih (fun c hc => h c (List.mem_cons_of_mem d hc))]

theorem wsCollapse_eq_self (s : List Nat) (h : ∀ c ∈ s, isPySpace c = false) :
    wsCollapse false s = s := by
  induction s with
  | nil => rfl
  | cons d ds ih =>
    have hd := h d (List.mem_cons_self d ds)
    simp only [wsCollapse, hd, Bool.false_eq_true, if_false]
    rw [ih (fun c hc => h c (List.mem_cons_of_mem d hc))]

theorem mem_wsCollapse (b : Bool) (s : List Nat) (c : Nat) (h : c ∈ wsCollapse b s) :
    c = 45 ∨ (c ∈ s ∧ isPySpace c = false) := by
  induction s generalizing b with
  | nil => simp [wsCollapse] at h
  | cons d ds ih =>
    simp only [wsCollapse] at h
    by_cases hd : isPySpace d = true
    · rw [if_pos hd] at h
      cases b with
      | true =>
        rw [if_pos rfl] at h
        rcases ih true h with h45 | ⟨hm, hs⟩
        · exact Or.inl h45
        · exact Or.inr ⟨List.mem_cons_of_mem d hm, hs⟩
      | false =>
        rw [if_neg (by simp)] at h
        rcases List.mem_cons.mp h with rfl | h
        · exact Or.inl rfl
        · rcases ih true h with h45 | ⟨hm, hs⟩
          · exact Or.inl h45
          · exact Or.inr ⟨List.mem_cons_of_mem d hm, hs⟩
    · rw [if_neg hd] at h
      rcases List.mem_cons.mp h with rfl | h
      · exact Or.inr ⟨List.mem_cons_self c ds, by simpa using hd⟩
      · rcases ih false h with h45 | ⟨hm, hs⟩
        · exact Or.inl h45
        · exact Or.inr ⟨List.mem_cons_of_mem d hm, hs⟩

theorem mem_hyCollapse (b : Bool) (s : List Nat) (c : Nat) (h : c ∈ hyCollapse b s) :
    c ∈ s := by
  induction s generalizing b with
  | nil => simp [hyCollapse] at h
  | cons d ds ih =>
    simp only [hyCollapse] at h
    by_cases hd : d = 45
    · rw [if_pos hd] at h
      cases b with
      | true =>
        rw [if_pos rfl] at h
        exact List.mem_cons_of_mem d (ih true h)
      | false =>
        rw [if_neg (by simp)] at h
        rcases List.mem_cons.mp h with rfl | h
        · exact hd ▸ List.mem_cons_self d ds
        · exact List.mem_cons_of_mem d (ih true h)
    · rw [if_neg hd] at h
      rcases List.mem_cons.mp h with rfl | h
      · exact List.mem_cons_self c ds
      · exact List.mem_cons_of_mem d (ih false h)

theorem hyCollapse_true_head (s : List Nat) (c : Nat)
    (h : (hyCollapse true s).head? = some c) : c ≠ 45 := by
  induction s with
  | nil => simp [hyCollapse] at h
  | cons d ds ih =>
    simp only [hyCollapse] at h
    by_cases hd : d = 45
    · rw [if_pos hd, if_pos trivial] at h
      exact ih h
    · rw [if_neg hd] at h
      simp only [List.head?_cons, Option.some_inj] at h
      exact h ▸ hd

theorem hyCollapse_chain (b : Bool) (s : List Nat) :
    List.Chain' (fun a b => ¬(a = 45 ∧ b = 45)) (hyCollapse b s) := by
  induction s generalizing b with
  | nil => simp [hyCollapse]
  | cons d ds ih =>
    simp only [hyCollapse]
    by_cases hd : d = 45
    · rw [if_pos hd]
      cases b with
      | true =>
        rw [if_pos rfl]
        exact ih true
      | false =>
        rw [if_neg (by simp)]
        rw [List.chain'_cons']
        refine ⟨fun y hy hpair => ?_, ih true⟩
        exact hyCollapse_true_head ds y hy hpair.2
    · rw [if_neg hd, List.chain'_cons']
      exact ⟨fun y _ hpair => hd hpair.1, ih false⟩

theorem hyCollapse_eq_self (s : List Nat)
    (h : List.Chain' (fun a b => ¬(a = 45 ∧ b = 45)) s) :
    hyCollapse false s = s ∧
      ((∀ c, s.head? = some c → c ≠ 45) → hyCollapse true s = s) := by
  induction s with
  | nil => exact ⟨rfl, fun _ => rfl⟩
  | cons d ds ih =>
    rw [List.chain'_cons'] at h
    obtain ⟨hhead, htail⟩ := h
    obtain ⟨ih1, ih2⟩ := ih htail
    constructor
    · simp only [hyCollapse]
      by_cases hd : d = 45
      · subst hd
        rw [if_pos rfl, if_neg (by simp)]
        congr 1
        apply ih2
        intro c hc hc45
        exact hhead c (by simp [hc]) ⟨rfl, hc45⟩
      · rw [if_neg hd, ih1]
    · intro hno
      simp only [hyCollapse]
      have hd : ¬(d = 45) := hno d rfl
      rw [if_neg hd, ih1]

theorem dropWhile_head_not (p : Nat → Bool) (s : List Nat) (c : Nat)
    (h : (s.dropWhile p).head? = some c) : p c = false := by
  induction s with
  | nil => simp [List.dropWhile] at h
  | cons d ds ih =>
    rw [List.dropWhile_cons] at h
    by_cases hd : p d = true
    · rw [if_pos hd] at h
      exact ih h
    · rw [if_neg hd] at h
      simp only [List.head?_cons, Option.some_inj] at h
      subst h
      simpa using hd

theorem dropWhile_eq_self_of (p : Nat → Bool) (s : List Nat)
    (h : ∀ c, s.head? = some c → p c = false) : s.dropWhile p = s := by
  cases s with
  | nil => rfl
  | cons d ds =>
    rw [List.dropWhile_cons, if_neg]
    simp [h d rfl]

theorem mem_dropWhile_sub (p : Nat → Bool) (s : List Nat) (c : Nat)
    (h : c ∈ s.dropWhile p) : c ∈ s :=
  (List.dropWhile_sublist p).subset h

theorem getLast?_dropWhile_sub (p : Nat → Bool) (s : List Nat) (c : Nat)
    (h : (s.dropWhile p).getLast? = some c) : s.getLast? = some c := by
  induction s with
  | nil => simp [List.dropWhile] at h
  | cons d ds ih =>
    rw [List.dropWhile_cons] at h
    by_cases hd : p d = true
    · rw [if_pos hd] at h
      cases ds with
      | nil => simp [List.dropWhile] at h
      | cons e es =>
        rw [List.getLast?_cons_cons]
        exact ih h
    · rw [if_neg hd] at h
      exact h

theorem mem_stripHyphens_sub (s : List Nat) (c : Nat) (h : c ∈ stripHyphens s) :
    c ∈ s := by
  unfold stripHyphens at h
  rw [List.mem_reverse] at h
  have h2 := mem_dropWhile_sub _ _ _ h
  rw [List.mem_reverse] at h2
  exact mem_dropWhile_sub _ _ _ h2

theorem stripHyphens_head_not (s : List Nat) (c : Nat)
    (h : (stripHyphens s).head? = some c) : (c == 45) = false := by
  unfold stripHyphens at h
  rw [List.head?_reverse] at h
  have h2 := getLast?_dropWhile_sub _ _ _ h
  rw [List.getLast?_reverse] at h2
  exact dropWhile_head_not (fun c => c == 45) _ c h2

theorem stripHyphens_last_not (s : List Nat) (c : Nat)
    (h : (stripHyphens s).getLast? = some c) : (c == 45) = false := by
  unfold stripHyphens at h
  rw [List.getLast?_reverse] at h
  exact dropWhile_head_not (fun c => c == 45) _ c h

theorem stripHyphens_idem (s : List Nat) :
    stripHyphens (stripHyphens s) = stripHyphens s := by
  have h1 : (stripHyphens s).dropWhile (fun c => c == 45) = stripHyphens s :=
    dropWhile_eq_self_of _ _ (fun c hc => stripHyphens_head_not s c hc)
  have h2 : (stripHyphens s).reverse.dropWhile (fun c => c == 45) =
      (stripHyphens s).reverse :=
    dropWhile_eq_self_of _ _ (fun c hc => by
      rw [List.head?_reverse] at hc
      exact stripHyphens_last_not s c hc)
  show (((stripHyphens s).dropWhile _).reverse.dropWhile _).reverse = stripHyphens s
  rw [h1, h2, List.reverse_reverse]

theorem stripHyphens_chain (s : List Nat)
    (h : List.Chain' (fun a b => ¬(a = 45 ∧ b = 45)) s) :
    List.Chain' (fun a b => ¬(a = 45 ∧ b = 45)) (stripHyphens s) := by
  have hrev : ∀ (t : List Nat), List.Chain' (fun a b => ¬(a = 45 ∧ b = 45)) t →
      List.Chain' (fun a b => ¬(a = 45 ∧ b = 45)) t.reverse := fun t ht =>
    List.chain'_reverse.mpr (ht.imp (fun a b hab hp => hab ⟨hp.2, hp.1⟩))
  unfold stripHyphens
  exact hrev _ ((hrev _ (h.suffix (List.dropWhile_suffix _))).suffix
    (List.dropWhile_suffix _))

theorem mem_heading_to_anchor (s : List Nat) (c : Nat) (h : c ∈ heading_to_anchor s) :
    (c = 45 ∨ isWordCp c = true) ∧ isPySpace c = false ∧ pyLower c = c := by
  unfold heading_to_anchor at h
  have h6 := mem_stripHyphens_sub _ _ h
  have h5 := mem_hyCollapse _ _ _ h6
  rcases mem_wsCollapse _ _ _ h5 with rfl | ⟨h4, hsp⟩
  · exact ⟨Or.inl rfl, by decide, by decide⟩
  · unfold anchorKept at h4
    obtain ⟨h3, hkeep⟩ := List.mem_filter.mp h4
    obtain ⟨c0, _, rfl⟩ := List.mem_map.mp h3
    refine ⟨?_, hsp, pyLower_pyLower c0⟩
    simp only [Bool.or_eq_true] at hkeep
    rcases hkeep with (hw | hs) | h45
    · exact Or.inr hw
    · rw [hs] at hsp
      cases hsp
    · exact Or.inl (by simpa using h45)

/-! Helper lemmas about minLevelOf and the rendering fold of generate_toc. -/

theorem foldl_min_le (t : List (Nat × List Nat × Nat)) :
    ∀ (a : Nat), t.foldl (fun m x => min m x.1) a ≤ a := by
  induction t with
  | nil => intro a; exact Nat.le_refl a
  | cons h tl ih =>
    intro a
    exact Nat.le_trans (ih (min a h.1)) (Nat.min_le_left a h.1)

theorem foldl_min_le_mem (t : List (Nat × List Nat × Nat)) :
    ∀ (a : Nat) (x : Nat × List Nat × Nat), x ∈ t →
      t.foldl (fun m x => min m x.1) a ≤ x.1 := by
  induction t with
  | nil => intro a x hx; simp at hx
  | cons h tl ih =>
    intro a x hx
    rcases List.mem_cons.mp hx with rfl | hx
    · exact Nat.le_trans (foldl_min_le tl (min a x.1)) (Nat.min_le_right a x.1)
    · exact ih (min a h.1) x hx

theorem foldl_min_attained (t : List (Nat × List Nat × Nat)) :
    ∀ (a : Nat), t.foldl (fun m x => min m x.1) a = a ∨
      ∃ x ∈ t, t.foldl (fun m x => min m x.1) a = x.1 := by
  induction t with
  | nil => intro a; exact Or.inl rfl
  | cons h tl ih =>
    intro a
    rcases ih (min a h.1) with heq | ⟨x, hx, heq⟩
    · rcases Nat.le_total a h.1 with hle | hle
      · left
        rw [List.foldl_cons, heq]
        exact Nat.min_eq_left hle
      · right
        exact ⟨h, List.mem_cons_self h tl, by
          rw [List.foldl_cons, heq]; exact Nat.min_eq_right hle⟩
    · right
      exact ⟨x, List.mem_cons_of_mem h hx, by rw [List.foldl_cons]; exact heq⟩

theorem minLevelOf_le (ts : List (Nat × List Nat × Nat)) (x : Nat × List Nat × Nat)
    (hx : x ∈ ts) : minLevelOf ts ≤ x.1 := by
  cases ts with
  | nil => simp at hx
  | cons h tl =>
    rcases List.mem_cons.mp hx with rfl | hx
    · exact foldl_min_le tl x.1
    · exact foldl_min_le_mem tl h.1 x hx

theorem minLevelOf_attained (ts : List (Nat × List Nat × Nat)) (h : ts ≠ []) :
    ∃ x ∈ ts, minLevelOf ts = x.1 := by
  cases ts with
  | nil => exact absurd rfl h
  | cons hd tl =>
    rcases foldl_min_attained tl hd.1 with heq | ⟨x, hx, heq⟩
    · exact ⟨hd, List.mem_cons_self hd tl, heq⟩
    · exact ⟨x, List.mem_cons_of_mem hd hx, heq⟩

theorem minLevelOf_filter (ts : List (Nat × List Nat × Nat)) (maxL : Nat)
    (w : Nat × List Nat × Nat) (hw : w ∈ ts) (hwle : w.1 ≤ maxL) :
    minLevelOf (ts.filter (fun x => decide (x.1 ≤ maxL))) = minLevelOf ts := by
  have hwf : w ∈ ts.filter (fun x => decide (x.1 ≤ maxL)) :=
    List.mem_filter.mpr ⟨hw, by simpa⟩
  apply Nat.le_antisymm
  · obtain ⟨x, hx, heq⟩ := minLevelOf_attained ts (by rintro rfl; simp at hw)
    by_cases hxle : x.1 ≤ maxL
    · rw [heq]
      exact minLevelOf_le _ x (List.mem_filter.mpr ⟨hx, by simpa⟩)
    · exfalso
      have := minLevelOf_le ts w hw
      omega
  · obtain ⟨y, hy, heq⟩ := minLevelOf_attained (ts.filter (fun x => decide (x.1 ≤ maxL)))
      (by intro hc; rw [hc] at hwf; simp at hwf)
    rw [heq]
    exact minLevelOf_le ts y (List.mem_filter.mp hy).1

theorem foldl_tocStep_filter (maxL minL : Nat) (l : List (Nat × List Nat × Nat)) :
    ∀ st, (l.filter (fun x => decide (x.1 ≤ maxL))).foldl (tocStep maxL minL) st =
      l.foldl (tocStep maxL minL) st := by
  induction l with
  | nil => intro st; rfl
  | cons h tl ih =>
    intro st
    by_cases hp : h.1 ≤ maxL
    · rw [List.filter_cons_of_pos (by simpa), List.foldl_cons, List.foldl_cons, ih]
    · rw [List.filter_cons_of_neg (by simpa using hp), List.foldl_cons]
      have hskip : tocStep maxL minL st h = st := by
        have hgt : h.1 > maxL := by omega
        unfold tocStep
        rw [if_pos hgt]
      rw [hskip, ih]

/-! The claims. -/

/-- C1: the claim says the full pipeline (extract, render with the defaults
max_level 3 and skip_first true, inject) is idempotent: running it a second
time on its own output returns the same document byte for byte.  The code is
not idempotent: it inserts a blank line before the opening marker but the
re-run removes only the lines from the opening to the closing marker, so each
run leaves one more blank line behind.  Evaluating the code at the two-line
document "# T" / "## A" exhibits the divergence. -/
theorem c1_pipeline_not_idempotent :
    tocPipeline (tocPipeline (str2cp "# T\n## A")) ≠ tocPipeline (str2cp "# T\n## A") := by
  decide

/-- C2 counterexample: the claim says generate_toc returns a "no TOC" value on
an empty post-skip list that is distinguishable from an empty-but-present
rendered string such as the one produced when every remaining heading exceeds
max_level.  Both are the empty string, so they are not distinguishable. -/
theorem c2_counterexample :
    generate_toc [] 3 true = [] ∧
      generate_toc [(1, str2cp "t", 0), (4, str2cp "x", 1)] 3 true = [] := by
  decide

/-- C2 amended: whenever the heading list remaining after the skip_first drop
is empty, generate_toc returns the empty string; this "no TOC" signal is the
same value as an empty rendered string, not a distinct one. -/
theorem c2_no_toc_is_empty_string (headings : List (Nat × List Nat × Nat))
    (max_level : Nat) (skip_first : Bool)
    (h : (if skip_first then headings.drop 1 else headings) = []) :
    generate_toc headings max_level skip_first = [] := by
  have h' : (if skip_first then headings.tail else headings) = [] := by
    simpa using h
  simp [generate_toc, h']

theorem c2_no_toc_is_empty_string_witness :
    generate_toc [(1, str2cp "Title", 0)] 3 true = [] :=
  c2_no_toc_is_empty_string [(1, str2cp "Title", 0)] 3 true (by decide)

/-- C6 counterexample: the claim says every non-ASCII letter passes through
the lowercasing step unchanged, so a heading consisting of the single letter
U+00C9 (a non-ASCII uppercase letter) would keep it as written.  The code
lowercases it to U+00E9. -/
theorem c6_counterexample :
    heading_to_anchor [201] ≠ [201] ∧ heading_to_anchor [201] = [233] := by
  decide

/-- C6 amended: the lowercasing step of heading_to_anchor is Unicode-aware,
not ASCII-only: every Latin-1 uppercase letter (code points 192-222 except
the multiplication sign 215) is mapped 32 places up to its lowercase form,
which the remaining steps keep. -/
theorem c6_latin1_lowercase (n : Nat) (h1 : n ∈ Finset.Icc (192 : Nat) 222)
    (h2 : n ≠ 215) : heading_to_anchor [n] = [n + 32] := by
  have hall : ∀ m ∈ Finset.Icc (192 : Nat) 222, m ≠ 215 →
      heading_to_anchor [m] = [m + 32] := by decide
  exact hall n h1 h2

theorem c6_latin1_lowercase_witness : heading_to_anchor [201] = [201 + 32] :=
  c6_latin1_lowercase 201 (by decide) (by decide)

/-- C7 counterexample: the claim says a heading list with texts Intro, Intro,
Intro under skip_first renders the three anchors intro, intro-1 and intro-2.
The first heading is dropped by skip_first, so only two entries remain and
intro-2 is never produced. -/
theorem c7_counterexample :
    generate_toc [(1, str2cp "Intro", 0), (1, str2cp "Intro", 1),
        (1, str2cp "Intro", 2)] 3 true =
      str2cp "- [Intro](#intro)\n- [Intro](#intro-1)" ∧
    generate_toc [(1, str2cp "Intro", 0), (1, str2cp "Intro", 1),
        (1, str2cp "Intro", 2)] 3 true ≠
      str2cp "- [Intro](#intro)\n- [Intro](#intro-1)\n- [Intro](#intro-2)" := by
  decide

/-- C7 amended: with skip_first, a title heading followed by three headings
with text Intro renders the anchors intro, intro-1 and intro-2 in that order:
a raw anchor already in the counter table bumps its count and gets it as a
hyphenated suffix, a fresh raw anchor is stored with count zero and used
unchanged. -/
theorem c7_duplicate_anchor_suffixes :
    generate_toc [(1, str2cp "Title", 0), (2, str2cp "Intro", 1),
        (2, str2cp "Intro", 2), (2, str2cp "Intro", 3)] 3 true =
      str2cp "- [Intro](#intro)\n- [Intro](#intro-1)\n- [Intro](#intro-2)" := by
  decide

/-- C4: the claim says the lines from start to end inclusive are removed in
every branch, so a document holding a TOC block but no heading never ends up
with two blocks.  In the no-heading branch the code prepends the new block to
the ORIGINAL content string, discarding the removal, so the old block
survives and the result holds two TOC blocks.  Evaluating the code at a
document that is exactly an old TOC block exhibits the divergence. -/
theorem c4_no_heading_branch_keeps_old_block :
    insert_toc (str2cp "<!-- TOC -->\nold\n<!-- /TOC -->") (str2cp "X") =
      str2cp "<!-- TOC -->\nX\n<!-- /TOC -->\n\n<!-- TOC -->\nold\n<!-- /TOC -->" := by
  decide

/-- C8: filtering the too-deep headings out of the heading list remaining
after the skipFirst drop (rendered with skip_first false, the drop having
been applied) leaves generate_toc's output unchanged whenever at least one
heading within max_level remains: the skipped headings affect neither the
min-level indentation baseline nor the duplicate counter table. -/
theorem c8_depth_filtering (ts : List (Nat × List Nat × Nat)) (maxL : Nat)
    (h : ∃ x ∈ ts, x.1 ≤ maxL) :
    generate_toc (ts.filter (fun x => decide (x.1 ≤ maxL))) maxL false =
      generate_toc ts maxL false := by
  obtain ⟨w, hw, hwle⟩ := h
  have hts : ts ≠ [] := by rintro rfl; simp at hw
  have hwf : w ∈ ts.filter (fun x => decide (x.1 ≤ maxL)) :=
    List.mem_filter.mpr ⟨hw, by simpa⟩
  have hfne : ts.filter (fun x => decide (x.1 ≤ maxL)) ≠ [] := by
    intro hc; rw [hc] at hwf; simp at hwf
  simp only [generate_toc, if_neg hts, if_neg hfne, Bool.false_eq_true, if_false]
  rw [minLevelOf_filter ts maxL w hw hwle, foldl_tocStep_filter]

theorem c8_depth_filtering_witness :
    generate_toc ([(1, str2cp "A", 0), (4, str2cp "D", 1)].filter
        (fun x => decide (x.1 ≤ 3))) 3 false =
      generate_toc [(1, str2cp "A", 0), (4, str2cp "D", 1)] 3 false :=
  c8_depth_filtering [(1, str2cp "A", 0), (4, str2cp "D", 1)] 3
    ⟨(1, str2cp "A", 0), by decide, by decide⟩

/-- C10: heading_to_anchor is idempotent: its output consists of word
characters in the image of the lowercasing map and isolated interior hyphens,
and every step of the function is the identity on such strings. -/
theorem c10_anchor_idempotent (s : List Nat) :
    heading_to_anchor (heading_to_anchor s) = heading_to_anchor s := by
  have hmem : ∀ c ∈ heading_to_anchor s,
      (c = 45 ∨ isWordCp c = true) ∧ isPySpace c = false ∧ pyLower c = c :=
    fun c hc => mem_heading_to_anchor s c hc
  set out := heading_to_anchor s with hout
  have hne60 : ∀ c ∈ out, c ≠ 60 := by
    intro c hc h60
    rcases (hmem c hc).1 with h45 | hw
    · omega
    · rw [h60] at hw
      exact absurd hw (by decide)
  have hne96 : ∀ c ∈ out, c ≠ 96 := by
    intro c hc h96
    rcases (hmem c hc).1 with h45 | hw
    · omega
    · rw [h96] at hw
      exact absurd hw (by decide)
  have h1 : removeComments out = out := rmcAux_eq_self out.length out hne60
  have h2 : stripCodeSpans out = out := codeAux_eq_self out.length out hne96
  have h3 : out.map pyLower = out := map_eq_self_of pyLower out
    (fun c hc => (hmem c hc).2.2)
  have h4 : out.filter (fun c => isWordCp c || isPySpace c || c == 45) = out :=
    List.filter_eq_self.mpr (fun c hc => by
      rcases (hmem c hc).1 with rfl | hw
      · simp
      · simp [hw])
  have hkept : anchorKept out = out := by
    unfold anchorKept
    rw [h1, h2, h3, h4]
  have h5 : wsCollapse false out = out :=
    wsCollapse_eq_self out (fun c hc => (hmem c hc).2.1)
  have hchain : List.Chain' (fun a b => ¬(a = 45 ∧ b = 45)) out := by
    rw [hout]
    exact stripHyphens_chain _ (hyCollapse_chain false _)
  have h6 : hyCollapse false out = out := (hyCollapse_eq_self out hchain).1
  have h7 : stripHyphens out = out := by
    rw [hout]
    exact stripHyphens_idem (hyCollapse false (wsCollapse false (anchorKept s)))
  show heading_to_anchor out = out
  unfold heading_to_anchor
  rw [hkept, h5, h6, h7]

/-! Helper lemmas about the line scans of extract_headings and insert_toc. -/

theorem extractAux_fence (rest : List (List Nat)) :
    ∀ (st : Option (List Nat)) (i0 : Nat) (l : Nat) (t : List Nat) (i : Nat),
      (l, t, i) ∈ extractAux st i0 rest →
      ∃ k, k < rest.length ∧ i = i0 + k ∧
        (rest.take k).foldl fenceUpd st = none ∧
        ∃ line, rest.get? k = some line ∧ isFenceCand (pyStrip line) = false := by
  induction rest with
  | nil => intro st i0 l t i h; simp [extractAux] at h
  | cons line rs ih =>
    intro st i0 l t i h
    simp only [extractAux] at h
    by_cases hc : isFenceCand (pyStrip line) = true
    · rw [if_pos hc] at h
      obtain ⟨k, hk, hi, hst, w, hw, hwc⟩ := ih _ _ _ _ _ h
      refine ⟨k + 1, by simpa using hk, by omega, ?_, w, by simpa using hw, hwc⟩
      rw [List.take_succ_cons, List.foldl_cons,
        show fenceUpd st line = fenceStep st (pyStrip line) from by
          unfold fenceUpd; rw [if_pos hc]]
      exact hst
    · rw [if_neg hc] at h
      have hupd : fenceUpd st line = st := by
        unfold fenceUpd; rw [if_neg hc]
      have hcont : (l, t, i) ∈ extractAux st (i0 + 1) rs →
          ∃ k, k < (line :: rs).length ∧ i = i0 + k ∧
            ((line :: rs).take k).foldl fenceUpd st = none ∧
            ∃ w, (line :: rs).get? k = some w ∧ isFenceCand (pyStrip w) = false := by
        intro h'
        obtain ⟨k, hk, hi, hst, w, hw, hwc⟩ := ih _ _ _ _ _ h'
        exact ⟨k + 1, by simpa using hk, by omega,
          by rw [List.take_succ_cons, List.foldl_cons, hupd]; exact hst,
          w, by simpa using hw, hwc⟩
      by_cases hf : st.isSome = true
      · rw [if_pos hf] at h
        exact hcont h
      · rw [if_neg hf] at h
        have hstnone : st = none := Option.not_isSome_iff_eq_none.mp (by simpa using hf)
        by_cases hind :
            (startsWithL line (str2cp "    ") || startsWithL line (str2cp "\t")) = true
        · rw [if_pos hind] at h
          exact hcont h
        · rw [if_neg hind] at h
          cases hm : matchHeading line with
          | none =>
            rw [hm] at h
            exact hcont h
          | some p =>
            obtain ⟨lvl, txt⟩ := p
            rw [hm] at h
            rcases List.mem_cons.mp h with heq | h'
            · simp only [Prod.mk.injEq] at heq
              obtain ⟨rfl, rfl, rfl⟩ := heq
              exact ⟨0, by simp, by omega, by simp [hstnone], line, rfl,
                by simpa using hc⟩
            · exact hcont h'

theorem takeWhile_pos_head (q : Nat → Bool) (l : List Nat)
    (h : 1 ≤ (l.takeWhile q).length) : ∃ c, l.head? = some c ∧ q c = true := by
  cases l with
  | nil => simp [List.takeWhile] at h
  | cons d ds =>
    rw [List.takeWhile_cons] at h
    by_cases hd : q d = true
    · exact ⟨d, rfl, hd⟩
    · rw [if_neg hd] at h
      simp at h

theorem matchHeading_loose (line : List Nat) (p : Nat × List Nat)
    (h : matchHeading line = some p) : looseHeading line = true := by
  simp only [matchHeading] at h
  simp only [looseHeading]
  by_cases h16 : 1 ≤ (line.takeWhile (fun c => c == 35)).length ∧
      (line.takeWhile (fun c => c == 35)).length ≤ 6
  · rw [if_pos h16] at h
    rw [Bool.and_eq_true]
    refine ⟨decide_eq_true h16, ?_⟩
    by_cases hk :
        ((line.drop ((line.takeWhile (fun c => c == 35)).length)).takeWhile
          isPySpace).length = 0
    · rw [if_pos hk] at h
      cases h
    · obtain ⟨c, hc, hcs⟩ := takeWhile_pos_head isPySpace
        (line.drop ((line.takeWhile (fun c => c == 35)).length)) (by omega)
      rw [hc]
      exact hcs
  · rw [if_neg h16] at h
    cases h

theorem findHeadAux_none (rest : List (List Nat)) :
    ∀ (st : Option (List Nat)) (i0 : Nat), findHeadAux st i0 rest = none →
      extractAux st i0 rest = [] := by
  induction rest with
  | nil => intro st i0 _; rfl
  | cons line rs ih =>
    intro st i0 h
    simp only [findHeadAux] at h
    simp only [extractAux]
    by_cases hc : isFenceCand (pyStrip line) = true
    · rw [if_pos hc] at h ⊢
      exact ih _ _ h
    · rw [if_neg hc] at h ⊢
      by_cases hf : st.isSome = true
      · rw [if_pos hf] at h ⊢
        exact ih _ _ h
      · rw [if_neg hf] at h ⊢
        by_cases hl : looseHeading line = true
        · rw [if_pos hl] at h
          cases h
        · rw [if_neg hl] at h
          by_cases hind :
              (startsWithL line (str2cp "    ") || startsWithL line (str2cp "\t")) = true
          · rw [if_pos hind]
            exact ih _ _ h
          · rw [if_neg hind]
            cases hm : matchHeading line with
            | none =>
              exact ih _ _ h
            | some p =>
              exact absurd (matchHeading_loose line p hm) hl

theorem findTocAux_charn (rest : List (List Nat)) :
    ∀ (st : Option Nat) (i0 s e : Nat), findTocAux rest st i0 = some (s, e) →
      i0 ≤ e ∧ e - i0 < rest.length ∧
      (∃ le, rest.get? (e - i0) = some le ∧ isEndLine le = true) ∧
      ((i0 ≤ s ∧ s < e ∧
          (∃ l0, rest.get? (s - i0) = some l0 ∧ isTocLine l0 = true) ∧
          (∀ j, s < j → j < e → ∀ lj, rest.get? (j - i0) = some lj →
            isTocLine lj = false)) ∨
        (st = some s ∧ ∀ j, i0 ≤ j → j < e → ∀ lj, rest.get? (j - i0) = some lj →
          isTocLine lj = false)) := by
  induction rest with
  | nil => intro st i0 s e h; simp [findTocAux] at h
  | cons l ls ih =>
    intro st i0 s e h
    by_cases ht : isTocLine l = true
    · simp only [findTocAux, if_pos ht] at h
      obtain ⟨he1, he2, ⟨le, hle, hlee⟩, hd⟩ := ih (some i0) (i0 + 1) s e h
      have hgete : (l :: ls).get? (e - i0) = ls.get? (e - (i0 + 1)) := by
        rw [show e - i0 = (e - (i0 + 1)) + 1 by omega, List.get?_cons_succ]
      refine ⟨by omega, by simp only [List.length_cons]; omega,
        ⟨le, by rw [hgete]; exact hle, hlee⟩, ?_⟩
      rcases hd with ⟨hs1, hs2, ⟨l0, hgs, hlst⟩, hgap⟩ | ⟨hst, hgap⟩
      · left
        refine ⟨by omega, hs2, ⟨l0, ?_, hlst⟩, ?_⟩
        · rw [show s - i0 = (s - (i0 + 1)) + 1 by omega, List.get?_cons_succ]
          exact hgs
        · intro j hj1 hj2 lj hgj
          rw [show j - i0 = (j - (i0 + 1)) + 1 by omega, List.get?_cons_succ] at hgj
          exact hgap j hj1 hj2 lj hgj
      · have hs : s = i0 := by
          simp only [Option.some_inj] at hst
          omega
        left
        refine ⟨by omega, by omega, ⟨l, by simp [hs], ht⟩, ?_⟩
        intro j hj1 hj2 lj hgj
        rw [show j - i0 = (j - (i0 + 1)) + 1 by omega, List.get?_cons_succ] at hgj
        exact hgap j (by omega) hj2 lj hgj
    · cases st with
      | some s0 =>
        by_cases hend : isEndLine l = true
        · simp only [findTocAux, if_neg ht, if_pos hend, Option.some_inj,
            Prod.mk.injEq] at h
          obtain ⟨rfl, rfl⟩ := h
          refine ⟨Nat.le_refl _, by simp, ⟨l, by simp, hend⟩, ?_⟩
          right
          exact ⟨rfl, fun j hj1 hj2 _ _ => absurd (Nat.lt_of_le_of_lt hj1 hj2)
            (Nat.lt_irrefl _)⟩
        · simp only [findTocAux, if_neg ht, if_neg hend] at h
          obtain ⟨he1, he2, ⟨le, hle, hlee⟩, hd⟩ := ih (some s0) (i0 + 1) s e h
          have hgete : (l :: ls).get? (e - i0) = ls.get? (e - (i0 + 1)) := by
            rw [show e - i0 = (e - (i0 + 1)) + 1 by omega, List.get?_cons_succ]
          refine ⟨by omega, by simp only [List.length_cons]; omega,
            ⟨le, by rw [hgete]; exact hle, hlee⟩, ?_⟩
          rcases hd with ⟨hs1, hs2, ⟨l0, hgs, hlst⟩, hgap⟩ | ⟨hst, hgap⟩
          · left
            refine ⟨by omega, hs2, ⟨l0, ?_, hlst⟩, ?_⟩
            · rw [show s - i0 = (s - (i0 + 1)) + 1 by omega, List.get?_cons_succ]
              exact hgs
            · intro j hj1 hj2 lj hgj
              rw [show j - i0 = (j - (i0 + 1)) + 1 by omega,
                List.get?_cons_succ] at hgj
              exact hgap j hj1 hj2 lj hgj
          · right
            refine ⟨hst, ?_⟩
            intro j hj1 hj2 lj hgj
            by_cases hji : j = i0
            · subst hji
              simp only [Nat.sub_self, List.get?_cons_zero, Option.some_inj] at hgj
              subst hgj
              simpa using ht
            · rw [show j - i0 = (j - (i0 + 1)) + 1 by omega,
                List.get?_cons_succ] at hgj
              exact hgap j (by omega) hj2 lj hgj
      | none =>
        simp only [findTocAux, if_neg ht] at h
        obtain ⟨he1, he2, ⟨le, hle, hlee⟩, hd⟩ := ih none (i0 + 1) s e h
        have hgete : (l :: ls).get? (e - i0) = ls.get? (e - (i0 + 1)) := by
          rw [show e - i0 = (e - (i0 + 1)) + 1 by omega, List.get?_cons_succ]
        refine ⟨by omega, by simp only [List.length_cons]; omega,
          ⟨le, by rw [hgete]; exact hle, hlee⟩, ?_⟩
        rcases hd with ⟨hs1, hs2, ⟨l0, hgs, hlst⟩, hgap⟩ | ⟨hst, _⟩
        · left
          refine ⟨by omega, hs2, ⟨l0, ?_, hlst⟩, ?_⟩
          · rw [show s - i0 = (s - (i0 + 1)) + 1 by omega, List.get?_cons_succ]
            exact hgs
          · intro j hj1 hj2 lj hgj
            rw [show j - i0 = (j - (i0 + 1)) + 1 by omega,
              List.get?_cons_succ] at hgj
            exact hgap j hj1 hj2 lj hgj
        · cases hst

/-- C3 counterexample: the claim says removal begins at the EARLIEST line
whose trimmed content is the opening marker when several of them precede the
first closing marker.  On such a document the scan reports start 1, not 0,
and the earliest marker line survives in insert_toc's output while the later
pair was replaced. -/
theorem c3_counterexample :
    findTocAux (splitLines (str2cp "<!-- TOC -->\n<!-- TOC -->\n<!-- /TOC -->\n# H"))
        none 0 = some (1, 2) ∧
    insert_toc (str2cp "<!-- TOC -->\n<!-- TOC -->\n<!-- /TOC -->\n# H") (str2cp "X") =
      str2cp "<!-- TOC -->\n# H\n\n<!-- TOC -->\nX\n<!-- /TOC -->" := by
  decide

/-- C3 amended: whenever insert_toc's marker scan reports a pair (start, end),
start is strictly before end, the line at start is an opening marker line,
the line at end is a closing marker line, and no line strictly between them
is an opening marker line: the removal begins at the LATEST opening marker
line preceding the matched closing marker, because each opening marker seen
overwrites the recorded start. -/
theorem c3_marker_scan_last_start (lines : List (List Nat)) (s e : Nat)
    (h : findTocAux lines none 0 = some (s, e)) :
    s < e ∧
      (∃ l0, lines.get? s = some l0 ∧ isTocLine l0 = true) ∧
      (∃ le, lines.get? e = some le ∧ isEndLine le = true) ∧
      ∀ j, s < j → j < e → ∀ lj, lines.get? j = some lj → isTocLine lj = false := by
  obtain ⟨he1, he2, ⟨le, hle, hlee⟩, hd⟩ := findTocAux_charn lines none 0 s e h
  rcases hd with ⟨hs1, hs2, ⟨l0, hgs, hlst⟩, hgap⟩ | ⟨hst, _⟩
  · refine ⟨hs2, ⟨l0, by simpa using hgs, hlst⟩, ⟨le, by simpa using hle, hlee⟩, ?_⟩
    intro j hj1 hj2 lj hgj
    exact hgap j hj1 hj2 lj (by simpa using hgj)
  · cases hst

theorem c3_marker_scan_last_start_witness :
    (1 : Nat) < 2 ∧
      (∃ l0, [str2cp "<!-- TOC -->", str2cp "<!-- TOC -->",
          str2cp "<!-- /TOC -->"].get? 1 = some l0 ∧ isTocLine l0 = true) ∧
      (∃ le, [str2cp "<!-- TOC -->", str2cp "<!-- TOC -->",
          str2cp "<!-- /TOC -->"].get? 2 = some le ∧ isEndLine le = true) ∧
      ∀ j, 1 < j → j < 2 → ∀ lj, [str2cp "<!-- TOC -->", str2cp "<!-- TOC -->",
          str2cp "<!-- /TOC -->"].get? j = some lj → isTocLine lj = false :=
  c3_marker_scan_last_start
    [str2cp "<!-- TOC -->", str2cp "<!-- TOC -->", str2cp "<!-- /TOC -->"] 1 2
    (by decide)

/-- C5 counterexample: the claim says the first-heading index found by
insert_toc is absent exactly when extract_headings is empty.  On the single
line "# " (hash and one space) insert_toc's loose pattern reports index 0
while extract_headings, whose pattern requires nonempty trailing text,
extracts nothing. -/
theorem c5_counterexample :
    find_first_heading [str2cp "# "] = some 0 ∧
      extract_headings [str2cp "# "] = [] := by
  decide

/-- C5 amended: insert_toc's first-heading scan applies the same
fence-tracking rules as extract_headings but a looser heading test (one to
six hashes then one whitespace character, with no nonempty-text or
indentation requirement), so it can report an index on documents whose
extracted heading list is empty; in the direction that survives, when the
scan finds no index at all, extract_headings returns the empty list. -/
theorem c5_no_loose_heading_no_headings (lines : List (List Nat))
    (h : find_first_heading lines = none) : extract_headings lines = [] :=
  findHeadAux_none lines none 0 h

theorem c5_no_loose_heading_no_headings_witness :
    extract_headings [str2cp "plain"] = [] :=
  c5_no_loose_heading_no_headings [str2cp "plain"] (by decide)

/-- C9: every heading recorded by extract_headings lies outside any fenced
code block: the fence state accumulated over the lines before it is the
outside-a-block state, and its own line is not a fence delimiter candidate;
hence a line inside a fenced block, or a delimiter line itself, never
contributes a heading. -/
theorem c9_fence_isolation (lines : List (List Nat)) (l : Nat) (t : List Nat)
    (i : Nat) (h : (l, t, i) ∈ extract_headings lines) :
    fenceStateAt lines i = none ∧
      ∃ line, lines.get? i = some line ∧ isFenceCand (pyStrip line) = false := by
  obtain ⟨k, hk, hi, hst, w, hw, hwc⟩ := extractAux_fence lines none 0 l t i h
  subst hi
  refine ⟨?_, w, by simpa using hw, hwc⟩
  unfold fenceStateAt
  simpa using hst

theorem c9_fence_isolation_witness :
    fenceStateAt [str2cp "# A"] 0 = none ∧
      ∃ line, [str2cp "# A"].get? 0 = some line ∧
        isFenceCand (pyStrip line) = false :=
  c9_fence_isolation [str2cp "# A"] 1 (str2cp "A") 0 (by decide)

end MarkdownToc
